import Mathlib

set_option autoImplicit false

/-!
Shallow embedding of the doctor-availability / appointment-slot scheduling
engine of the HealthMate backend
(`backend/app/models/doctor_availability.py`,
`backend/app/services/doctor_availability_service.py`,
`backend/app/services/appointment_service.py`,
`backend/app/services/availability_service.py`).

Modelling conventions:
* Times of day are minutes since midnight (`Nat`, `< 1440`).  Python's
  `datetime.combine(today, t) + timedelta(minutes=m)` followed by `.time()`
  is addition modulo `1440` (`add_minutes_to_time`).
* Calendar dates are absolute day numbers (`Nat`).  ISO date strings compare
  the same way as the day numbers, so MongoDB's `$gte`/`$lte` range queries
  become `≤` on `Nat`.  The weekday of a date (`strftime('%A').lower()`) is
  its residue mod 7.
* Each MongoDB collection is a `List` of records.  `update_one` updates the
  first matching document (`updateFirst`); `update_one` with `upsert=True`
  on a full-key filter replaces the first match or appends
  (`upsert_slot_doc`, the code's `$set` carries every modelled field).
  The source creates a unique index on
  `(doctor_email, slot_date, slot_time)` (doctor_availability_service.py
  line 25); theorems that need it take the corresponding no-duplicate-keys
  hypothesis `slotKeysNodup`.
* Appointment statuses are stored as the raw strings the code writes
  (`AppointmentStatus` is a `str` enum, so `"scheduled"`, `"cancelled"`, …
  are what lands in MongoDB), and queries compare them case-sensitively
  exactly as MongoDB does.
* The two slot-generation `while` loops can fail to terminate when the
  modular time arithmetic wraps past midnight, so they are embedded with
  explicit fuel and return `Option`; `none` models a non-terminating run.
-/

namespace HealthMate

/-- An `appointment_slots` document (models/doctor_availability.py,
`create_appointment_slots` / `book_slot` / `cancel_slot`). -/
structure SlotRec where
  doctor_email : String
  slot_date : Nat
  slot_time : Nat
  is_available : Bool
  appointment_id : Option String
  deriving DecidableEq, Repr

/-- One weekday entry of a weekly schedule (the dict produced by
`convert_timeslot_to_dict`: `start_time`, `end_time`, `is_available`). -/
structure SchedDay where
  start_time : Nat
  end_time : Nat
  is_available : Bool
  deriving DecidableEq, Repr

/-- A `doctor_schedules` document (`create_weekly_schedule`): the seven
optional weekday entries, indexed 0..6, plus the slot duration. -/
structure WeeklyRec where
  doctor_email : String
  days : List (Option SchedDay)
  slot_duration_minutes : Nat
  deriving DecidableEq, Repr

/-- A block-time entry of a daily override (`BlockTimeSlot`; the reason and
description fields play no role in slot computation). -/
structure BlockRec where
  start_time : Nat
  end_time : Nat
  deriving DecidableEq, Repr

/-- A `daily_overrides` document (`create_daily_override`). -/
structure OverrideRec where
  doctor_email : String
  override_date : Nat
  is_available : Bool
  start_time : Option Nat
  end_time : Option Nat
  block_time_slots : List BlockRec
  deriving DecidableEq, Repr

/-- An `appointments` document (models/appointment.py). -/
structure ApptRec where
  id : String
  doctor_email : String
  appointment_date : Nat
  appointment_time : Nat
  status : String
  deriving DecidableEq, Repr

/-- The shared data store (the MongoDB collections the scheduling engine
touches). -/
structure DB where
  doctor_schedules : List WeeklyRec
  appointment_slots : List SlotRec
  daily_overrides : List OverrideRec
  appointments : List ApptRec
  deriving DecidableEq, Repr

/-- `update_one`: rewrite the first element satisfying `p` with `f`, and
report whether a document matched (`modified_count > 0`; every modelled
`$set` also touches `updated_at`, so a matched document is a modified
document). -/
def updateFirst {α : Type} (p : α → Bool) (f : α → α) : List α → List α × Bool
  | [] => ([], false)
  | x :: xs =>
    if p x then (f x :: xs, true)
    else
      let r := updateFirst p f xs
      (x :: r.1, r.2)

/-- The slot-key filter `(doctor_email, slot_date, slot_time)`. -/
def slotKeyMatch (doc : String) (d t : Nat) (s : SlotRec) : Bool :=
  s.doctor_email == doc && s.slot_date == d && s.slot_time == t

/-- The key triple of a slot record. -/
def slotKey (s : SlotRec) : String × Nat × Nat :=
  (s.doctor_email, s.slot_date, s.slot_time)

/-- The unique index on `(doctor_email, slot_date, slot_time)`
(doctor_availability_service.py line 25): no two slot documents share a
key. -/
def slotKeysNodup (db : DB) : Prop :=
  (db.appointment_slots.map slotKey).Nodup

instance slotKeysNodupDecidable (db : DB) : Decidable (slotKeysNodup db) :=
  inferInstanceAs (Decidable (db.appointment_slots.map slotKey).Nodup)

/-- `DoctorAvailabilityModel.book_slot`: one conditional `update_one` whose
filter requires the key and `is_available: True`, setting
`is_available: False` and the `appointment_id`; returns
`modified_count > 0`. -/
def book_slot (db : DB) (doc : String) (d t : Nat) (apptId : String) : DB × Bool :=
  let r := updateFirst (fun s => slotKeyMatch doc d t s && s.is_available)
    (fun s => { s with is_available := false, appointment_id := some apptId })
    db.appointment_slots
  ({ db with appointment_slots := r.1 }, r.2)

/-- `DoctorAvailabilityModel.cancel_slot`: `update_one` on the filter
`{"appointment_id": appointment_id}`, setting `is_available: True` and
`appointment_id: None`; returns `modified_count > 0`. -/
def cancel_slot (db : DB) (apptId : String) : DB × Bool :=
  let r := updateFirst (fun s => s.appointment_id == some apptId)
    (fun s => { s with is_available := true, appointment_id := none })
    db.appointment_slots
  ({ db with appointment_slots := r.1 }, r.2)

/-- A sequence of `book_slot` calls on one key, threading the store and
counting the successful claims. -/
def runClaims (db : DB) (doc : String) (d t : Nat) : List String → DB × Nat
  | [] => (db, 0)
  | id :: ids =>
    let r := book_slot db doc d t id
    let rest := runClaims r.1 doc d t ids
    (rest.1, (if r.2 then 1 else 0) + rest.2)

/-! ### Time arithmetic and the slot-generation loops -/

/-- `_add_minutes_to_time`: `datetime.combine(today, t) + timedelta(minutes=m)`
then `.time()` — addition of minutes modulo one day. -/
def add_minutes_to_time (t m : Nat) : Nat := (t + m) % 1440

/-- Fuel bound for the embedded `while` loops.  A terminating run of any of
the loops below makes fewer than 1440 iterations whenever its time
arithmetic stays within one day; `none` models a run that does not
terminate within the fuel. -/
def loopFuel : Nat := 2000

/-- The slot-generation `while` loop of `_generate_slots_for_day`
(doctor_availability_service.py lines 205-223): while `current < end`,
compute `slot_end`, append `current` when `slot_end ≤ end`, and continue
from `slot_end`. -/
def generate_slots_day_loop (endT dur : Nat) : Nat → Nat → Option (List Nat)
  | 0, _ => none
  | fuel + 1, cur =>
    if cur < endT then
      (generate_slots_day_loop endT dur fuel (add_minutes_to_time cur dur)).map
        (fun rest => if add_minutes_to_time cur dur ≤ endT then cur :: rest else rest)
    else some []

/-- The time grid of `_generate_slots_for_day` as a function of start, end
and duration.  (At its call site the duration read from
`day_schedule.get("slot_duration_minutes", 30)` is always the default 30,
because the per-day dict built by `convert_timeslot_to_dict` has no such
key.) -/
def time_grid (st et dur : Nat) : Option (List Nat) :=
  generate_slots_day_loop et dur loopFuel st

/-- The code's overlap test in `_generate_slots_for_day_with_overrides`:
`slot_start < block_end and slot_end > block_start`. -/
def blocked_by (cur slotEnd : Nat) (b : BlockRec) : Bool :=
  cur < b.end_time && b.start_time < slotEnd

/-- The `while` loop of `_generate_slots_for_day_with_overrides`
(lines 613-640): like `generate_slots_day_loop`, but a slot whose interval
overlaps any block time is dropped. -/
def generate_slots_overrides_loop (endT dur : Nat) (blocks : List BlockRec) :
    Nat → Nat → Option (List Nat)
  | 0, _ => none
  | fuel + 1, cur =>
    if cur < endT then
      (generate_slots_overrides_loop endT dur blocks fuel (add_minutes_to_time cur dur)).map
        (fun rest =>
          if add_minutes_to_time cur dur ≤ endT &&
              !(blocks.any (blocked_by cur (add_minutes_to_time cur dur))) then
            cur :: rest else rest)
    else some []

/-- `_generate_slots_for_day_with_overrides`: the generated start times. -/
def generate_slots_with_overrides_times (st et dur : Nat) (blocks : List BlockRec) :
    Option (List Nat) :=
  generate_slots_overrides_loop et dur blocks loopFuel st

/-- The `while` loop of `AvailabilityService._generate_time_slots`
(availability_service.py lines 212-217): appends `current` unconditionally
while `current < end` and always steps by a fixed 30 minutes (the
`max_appointments` parameter does not influence the stepping). -/
def generate_time_slots_loop (endT : Nat) : Nat → Nat → Option (List Nat)
  | 0, _ => none
  | fuel + 1, cur =>
    if cur < endT then
      (generate_time_slots_loop endT fuel (add_minutes_to_time cur 30)).map
        (fun rest => cur :: rest)
    else some []

/-- `AvailabilityService._generate_time_slots` (after time parsing). -/
def generate_time_slots (st et : Nat) : Option (List Nat) :=
  generate_time_slots_loop et loopFuel st

/-- The sequence the spec's Time-Grid contract describes: `t₀ = start`,
`tᵢ₊₁ = tᵢ + duration`, containing exactly the `tᵢ` with
`tᵢ + duration ≤ end` (exact arithmetic, positive duration). -/
def specTimeGrid (dur endT cur : Nat) : List Nat :=
  if _h : 0 < dur ∧ cur + dur ≤ endT then cur :: specTimeGrid dur endT (cur + dur) else []
  termination_by endT - cur
  decreasing_by omega

/-- The sequence `_generate_time_slots` actually emits on non-wrapping
input: every `start + 30·i` strictly below `end`. -/
def specEvery30 (endT cur : Nat) : List Nat :=
  if cur < endT then cur :: specEvery30 endT (cur + 30) else []
  termination_by endT - cur
  decreasing_by omega

/-! ### Store queries and writes shared by the services -/

/-- `db.doctor_schedules.find_one({"doctor_email": ...})`. -/
def find_weekly (db : DB) (doc : String) : Option WeeklyRec :=
  db.doctor_schedules.find? (fun w => w.doctor_email == doc)

/-- `db.daily_overrides.find_one({"doctor_email": ..., "override_date": ...})`. -/
def find_override (db : DB) (doc : String) (d : Nat) : Option OverrideRec :=
  db.daily_overrides.find? (fun o => o.doctor_email == doc && o.override_date == d)

/-- The `(doctor_email, slot_date)` filter shared by the per-date queries. -/
def dateMatch (doc : String) (d : Nat) (s : SlotRec) : Bool :=
  s.doctor_email == doc && s.slot_date == d

/-- `db.appointment_slots.find({"doctor_email": ..., "slot_date": ...})`. -/
def slots_for_date (db : DB) (doc : String) (d : Nat) : List SlotRec :=
  db.appointment_slots.filter (dateMatch doc d)

/-- `db.appointment_slots.delete_many({"doctor_email": ..., "slot_date": ...})`. -/
def delete_slots_for_date (db : DB) (doc : String) (d : Nat) : DB :=
  { db with appointment_slots :=
      db.appointment_slots.filter (fun s => !(dateMatch doc d s)) }

/-- The per-document body of
`DoctorAvailabilityModel.create_appointment_slots`: `update_one` on the
unique key with `$set` of the whole document and `upsert=True` — replace
the first key match or append. -/
def upsert_slot_doc (db : DB) (rec : SlotRec) : DB :=
  let r := updateFirst (fun s => slotKeyMatch rec.doctor_email rec.slot_date rec.slot_time s)
    (fun _ => rec) db.appointment_slots
  if r.2 then { db with appointment_slots := r.1 }
  else { db with appointment_slots := db.appointment_slots ++ [rec] }

/-- `DoctorAvailabilityModel.create_appointment_slots`: upsert every
generated slot document in order. -/
def create_appointment_slots (db : DB) (recs : List SlotRec) : DB :=
  recs.foldl upsert_slot_doc db

/-- The slot document both generators build: `is_available: True`,
`appointment_id: None`. -/
def mkAvailSlot (doc : String) (d t : Nat) : SlotRec :=
  ⟨doc, d, t, true, none⟩

/-- The weekday entry of a weekly schedule for a date
(`weekly_schedule.get(day_name)` with `day_name = date.strftime('%A').lower()`;
the weekday of day number `d` is `d % 7`). -/
def dayScheduleOf (w : WeeklyRec) (d : Nat) : Option SchedDay :=
  w.days.getD (d % 7) none

/-- `day_schedule and day_schedule.get("is_available", False)`. -/
def dayAvailable : Option SchedDay → Bool
  | some s => s.is_available
  | none => false

/-- `_generate_slots_for_day`: return unchanged when slots already exist
for the date, otherwise run the grid (duration 30, see `time_grid`) and
upsert the generated documents. -/
def generate_slots_for_day (db : DB) (doc : String) (d : Nat) (sched : SchedDay) : Option DB :=
  if (slots_for_date db doc d).isEmpty then
    (time_grid sched.start_time sched.end_time 30).map
      (fun ts => create_appointment_slots db (ts.map (mkAvailSlot doc d)))
  else some db

/-- The inclusive date range `start_date..end_date` the service loops
iterate over. -/
def dateRange (sd ed : Nat) : List Nat :=
  (List.range (ed + 1 - sd)).map (fun i => sd + i)

/-- Sequencing of a per-date loop body over a date range, threading the
store; `none` as soon as one date's body does not terminate. -/
def foldSteps (step : DB → Nat → Option DB) : DB → List Nat → Option DB
  | db, [] => some db
  | db, d :: ds => (step db d).bind (fun db1 => foldSteps step db1 ds)

/-- One date of the `_ensure_slots_generated` loop: generate from the
weekly template when the day is available and no slots exist; delete the
date's slots when the day is not available and slots exist; otherwise do
nothing.  Daily overrides are not consulted. -/
def ensure_step (doc : String) (w : WeeklyRec) (db : DB) (d : Nat) : Option DB :=
  if dayAvailable (dayScheduleOf w d) && (slots_for_date db doc d).isEmpty then
    match dayScheduleOf w d with
    | some sched => generate_slots_for_day db doc d sched
    | none => some db
  else if !(dayAvailable (dayScheduleOf w d)) && !(slots_for_date db doc d).isEmpty then
    some (delete_slots_for_date db doc d)
  else some db

/-- `_ensure_slots_generated`: nothing without a weekly schedule, else the
per-date loop over the requested range. -/
def ensure_slots_generated (db : DB) (doc : String) (sd ed : Nat) : Option DB :=
  match find_weekly db doc with
  | none => some db
  | some w => foldSteps (ensure_step doc w) db (dateRange sd ed)

/-- One date of the `_generate_slots_for_period` loop: generate when the
weekly template marks the weekday available. -/
def period_step (doc : String) (w : WeeklyRec) (db : DB) (d : Nat) : Option DB :=
  if dayAvailable (dayScheduleOf w d) then
    match dayScheduleOf w d with
    | some sched => generate_slots_for_day db doc d sched
    | none => some db
  else some db

/-- `_generate_slots_for_period`. -/
def generate_slots_for_period (db : DB) (doc : String) (sd ed : Nat) : Option DB :=
  match find_weekly db doc with
  | none => some db
  | some w => foldSteps (period_step doc w) db (dateRange sd ed)

/-- Insertion into a list sorted by `slot_time`. -/
def insertByTime (s : SlotRec) : List SlotRec → List SlotRec
  | [] => [s]
  | x :: xs => if s.slot_time ≤ x.slot_time then s :: x :: xs else x :: insertByTime s xs

/-- The listing's result order: of the chained
`.sort("slot_date", 1).sort("slot_time", 1)` calls, PyMongo applies only
the last one, so results come back sorted by `slot_time`. -/
def sortByTime (l : List SlotRec) : List SlotRec :=
  l.foldr insertByTime []

/-- `DoctorAvailabilityModel.get_available_slots`: the `is_available`
documents of the doctor in the date range. -/
def model_get_available_slots (db : DB) (doc : String) (sd ed : Nat) : List SlotRec :=
  sortByTime (db.appointment_slots.filter
    (fun s => s.doctor_email == doc && decide (sd ≤ s.slot_date) &&
      decide (s.slot_date ≤ ed) && s.is_available))

/-- `DoctorAvailabilityService.get_available_slots`: empty without a weekly
schedule; otherwise run `_ensure_slots_generated` (which may mutate the
store) and then read the available slots. -/
def get_available_slots (db : DB) (doc : String) (sd ed : Nat) :
    Option (DB × List SlotRec) :=
  match find_weekly db doc with
  | none => some (db, [])
  | some _ =>
    match ensure_slots_generated db doc sd ed with
    | none => none
    | some db1 => some (db1, model_get_available_slots db1 doc sd ed)

/-- `DoctorAvailabilityModel.get_daily_overrides_range`. -/
def overrides_in_range (db : DB) (doc : String) (sd ed : Nat) : List OverrideRec :=
  db.daily_overrides.filter (fun o => o.doctor_email == doc &&
    decide (sd ≤ o.override_date) && decide (o.override_date ≤ ed))

/-- The block filter of `get_available_slots_with_overrides`: a base slot
is dropped iff some override for its exact date has a block window with
`block_start ≤ slot_time < block_end`.  A day-closing override with no
block windows drops nothing here. -/
def slot_blocked_by_override (ovs : List OverrideRec) (s : SlotRec) : Bool :=
  ovs.any (fun o => o.override_date == s.slot_date &&
    o.block_time_slots.any (fun b => b.start_time ≤ s.slot_time && s.slot_time < b.end_time))

/-- `get_available_slots_with_overrides`: fetch the overrides, take the
base listing (including its slot regeneration), and filter out
block-time-covered slots. -/
def get_available_slots_with_overrides (db : DB) (doc : String) (sd ed : Nat) :
    Option (DB × List SlotRec) :=
  match get_available_slots db doc sd ed with
  | none => none
  | some (db1, base) =>
    some (db1, base.filter (fun s => !(slot_blocked_by_override (overrides_in_range db doc sd ed) s)))

/-! ### Daily overrides and regeneration -/

/-- The result of `_compute_day_availability`. -/
structure ComputedAvail where
  is_available : Bool
  start_time : Option Nat
  end_time : Option Nat
  block_times : List BlockRec
  deriving DecidableEq, Repr

/-- `_compute_day_availability`: weekly-template baseline, then the daily
override — `is_available=false` closes the day, otherwise the override's
times (when given) replace the template's; block times always come from
the override. -/
def compute_day_availability (w? : Option WeeklyRec) (ov? : Option OverrideRec) (d : Nat) :
    ComputedAvail :=
  let base : ComputedAvail :=
    match w? with
    | some w =>
      match dayScheduleOf w d with
      | some sched =>
        if sched.is_available then ⟨true, some sched.start_time, some sched.end_time, []⟩
        else ⟨false, none, none, []⟩
      | none => ⟨false, none, none, []⟩
    | none => ⟨false, none, none, []⟩
  match ov? with
  | none => base
  | some ov =>
    if !ov.is_available then ⟨false, none, none, ov.block_time_slots⟩
    else
      ⟨base.is_available,
       (match ov.start_time with | some st => some st | none => base.start_time),
       (match ov.end_time with | some et => some et | none => base.end_time),
       ov.block_time_slots⟩

/-- `_regenerate_slots_for_date`: delete the date's slots, compute the
day's availability from template and override, and when open generate
fresh available slot documents with the override-aware generator.  (The
slot duration is read from the weekly schedule document, defaulting to 30;
the generation branch is only reached when that document exists.) -/
def regenerate_slots_for_date (db : DB) (doc : String) (d : Nat) : Option DB :=
  let db1 := delete_slots_for_date db doc d
  let comp := compute_day_availability (find_weekly db1 doc) (find_override db1 doc d) d
  if comp.is_available then
    match comp.start_time, comp.end_time with
    | some st, some et =>
      (generate_slots_with_overrides_times st et
          ((find_weekly db1 doc).map (·.slot_duration_minutes) |>.getD 30) comp.block_times).map
        (fun ts => create_appointment_slots db1 (ts.map (mkAvailSlot doc d)))
    | _, _ => some db1
  else some db1

/-- `DoctorAvailabilityModel.create_daily_override`: `update_one` with
`upsert=True` on `(doctor_email, override_date)` and a `$set` of the whole
document. -/
def upsert_override (db : DB) (ov : OverrideRec) : DB :=
  let r := updateFirst
    (fun o => o.doctor_email == ov.doctor_email && o.override_date == ov.override_date)
    (fun _ => ov) db.daily_overrides
  if r.2 then { db with daily_overrides := r.1 }
  else { db with daily_overrides := db.daily_overrides ++ [ov] }

/-- The service's first validation check: both times given and
`start_time >= end_time`. -/
def override_times_invalid (ov : OverrideRec) : Bool :=
  match ov.start_time, ov.end_time with
  | some st, some et => et ≤ st
  | _, _ => false

/-- The service's second validation check: some block time with
`start_time >= end_time`. -/
def some_block_invalid (ov : OverrideRec) : Bool :=
  ov.block_time_slots.any (fun b => b.end_time ≤ b.start_time)

/-- `DoctorAvailabilityService.create_daily_override`: synchronous
validation (returning the store untouched on failure), then upsert the
override document and regenerate the date's slots. -/
def create_daily_override (db : DB) (ov : OverrideRec) : Option (DB × Bool) :=
  if override_times_invalid ov then some (db, false)
  else if some_block_invalid ov then some (db, false)
  else
    match regenerate_slots_for_date (upsert_override db ov) ov.doctor_email ov.override_date with
    | none => none
    | some db2 => some (db2, true)

/-- `create_weekly_schedule` (model): `update_one` with `upsert=True` on
`doctor_email` and a `$set` of the whole document. -/
def upsert_weekly (db : DB) (w : WeeklyRec) : DB :=
  let r := updateFirst (fun x => x.doctor_email == w.doctor_email) (fun _ => w)
    db.doctor_schedules
  if r.2 then { db with doctor_schedules := r.1 }
  else { db with doctor_schedules := db.doctor_schedules ++ [w] }

/-- `db.appointment_slots.delete_many({"doctor_email": ..., "slot_date": {"$gte": today}})`. -/
def delete_future_slots (db : DB) (doc : String) (today : Nat) : DB :=
  { db with appointment_slots :=
      db.appointment_slots.filter (fun s => !(s.doctor_email == doc && decide (today ≤ s.slot_date))) }

/-- `update_weekly_schedule`: save the schedule, delete all slots from
today on, and regenerate the next 30 days. -/
def update_weekly_schedule (db : DB) (doc : String) (w : WeeklyRec) (today : Nat) : Option DB :=
  generate_slots_for_period (delete_future_slots (upsert_weekly db w) doc today) doc today (today + 30)

/-! ### Appointment lifecycle (appointment_service.py) -/

/-- The filter of `AppointmentService._is_slot_available`: same doctor,
date and time and `status ∈ {"SCHEDULED", "CONFIRMED"}` — the literal,
case-sensitive strings of the query (the statuses the code stores are the
lowercase enum values). -/
def apptKeyStatusMatch (doc : String) (d t : Nat) (a : ApptRec) : Bool :=
  a.doctor_email == doc && a.appointment_date == d && a.appointment_time == t &&
    (a.status == "SCHEDULED" || a.status == "CONFIRMED")

/-- `AppointmentService._is_slot_available`: true iff `find_one` with the
above filter matches nothing.  The slot store is not consulted. -/
def is_slot_available (db : DB) (doc : String) (d t : Nat) : Bool :=
  (db.appointments.find? (apptKeyStatusMatch doc d t)).isNone

/-- The `AppointmentCreate` payload fields the scheduling engine uses. -/
structure ApptCreate where
  id : String
  patient_email : String
  doctor_email : String
  appointment_date : Nat
  appointment_time : Nat
  deriving DecidableEq, Repr

/-- `AppointmentService.create_appointment`: raise (reject) when
`_is_slot_available` is false, otherwise insert the appointment document.
The referenced `AppointmentModel.to_dict` is not defined anywhere in the
repository; the inserted document is Modelled from the spec: a new
appointment starts in status `SCHEDULED`, stored as the enum's string
value `"scheduled"` exactly as `AppointmentModel.create_appointment`
stores it. -/
def create_appointment (db : DB) (a : ApptCreate) : DB × Except String ApptRec :=
  if is_slot_available db a.doctor_email a.appointment_date a.appointment_time then
    let rec0 : ApptRec := ⟨a.id, a.doctor_email, a.appointment_date, a.appointment_time, "scheduled"⟩
    ({ db with appointments := db.appointments ++ [rec0] }, Except.ok rec0)
  else (db, Except.error "Appointment slot is not available")

/-- `AppointmentService.cancel_appointment`: `update_one` on the
appointment id setting `status` to `AppointmentStatus.CANCELLED`
(stored as `"cancelled"`); returns `modified_count > 0`.  It does not
touch the slot store. -/
def cancel_appointment (db : DB) (apptId : String) : DB × Bool :=
  let r := updateFirst (fun a => a.id == apptId) (fun a => { a with status := "cancelled" })
    db.appointments
  ({ db with appointments := r.1 }, r.2)

/-- Availability in the words of the spec's Booking Coordinator contract
(for comparison with `is_slot_available`): a Slot Store record for the key
with `isAvailable=true` exists AND no non-cancelled appointment references
the key. -/
def spec_is_slot_available (db : DB) (doc : String) (d t : Nat) : Bool :=
  db.appointment_slots.any (fun s => slotKeyMatch doc d t s && s.is_available) &&
    !(db.appointments.any (fun a => a.doctor_email == doc && a.appointment_date == d &&
      a.appointment_time == t && !(a.status == "cancelled")))

/-! ### Concrete stores used by witnesses and counterexamples -/

/-- Doctor identity used in the concrete examples. -/
def drEmail : String := "doctor@example.com"

/-- A weekly schedule available on weekday 0 between `st` and `et`,
30-minute slots. -/
def weeklyMon (st et : Nat) : WeeklyRec :=
  ⟨drEmail, [some ⟨st, et, true⟩, none, none, none, none, none, none], 30⟩

/-- The empty store. -/
def emptyDB : DB := ⟨[], [], [], []⟩

/-- A store holding exactly one free slot for `(drEmail, day 0, 09:00)`. -/
def dbOneSlot : DB := ⟨[], [⟨drEmail, 0, 540, true, none⟩], [], []⟩

/-- Weekday-0 template 09:00–12:00 plus a day-closing override for day 0,
and no slot documents (the state `_regenerate_slots_for_date` leaves after
a closed-day override). -/
def dbOverrideClosed : DB :=
  ⟨[weeklyMon 540 720], [], [⟨drEmail, 0, false, none, none, []⟩], []⟩

/-- Weekday-0 template 09:00–11:00 and a booked slot at 09:00 on day 0. -/
def dbBooked : DB :=
  ⟨[weeklyMon 540 660], [⟨drEmail, 0, 540, false, some "A1"⟩], [], []⟩

/-- A booked slot together with its scheduled appointment `"A1"`. -/
def dbCancelCase : DB :=
  ⟨[], [⟨drEmail, 0, 540, false, some "A1"⟩], [],
    [⟨"A1", drEmail, 0, 540, "scheduled"⟩]⟩

/-- Weekday-0 template 09:00–11:00, no overrides, no slots. -/
def db6 : DB := ⟨[weeklyMon 540 660], [], [], []⟩

/-- The override of the spec's block-time example: day open, block
09:30–10:00. -/
def ov6 : OverrideRec := ⟨drEmail, 0, true, none, none, [⟨570, 600⟩]⟩

/-- The store after creating `ov6` on `db6`. -/
def db7 : DB := ((create_daily_override db6 ov6).getD (emptyDB, false)).1

/-- The store `_ensure_slots_generated` produces from `dbOverrideClosed`
for day 0 (used by the idempotence witness). -/
def db8 : DB := (ensure_slots_generated dbOverrideClosed drEmail 0 0).getD emptyDB

/-- The store `_regenerate_slots_for_date` produces from `dbBooked` for
day 0 (used by the regeneration witness). -/
def db4 : DB := (regenerate_slots_for_date dbBooked drEmail 0).getD emptyDB

/-! ### Generic `updateFirst` lemmas -/

theorem updateFirst_of_forall_not {α : Type} (p : α → Bool) (f : α → α)
    (l : List α) (h : ∀ x ∈ l, p x = false) : updateFirst p f l = (l, false) := by
  induction l with
  | nil => rfl
  | cons x xs ih =>
    have hx : p x = false := h x (List.mem_cons_self _ _)
    simp only [updateFirst, hx, Bool.false_eq_true, if_false]
    rw [ih (fun y hy => h y (List.mem_cons_of_mem _ hy))]

theorem updateFirst_snd_true_iff {α : Type} (p : α → Bool) (f : α → α)
    (l : List α) : (updateFirst p f l).2 = true ↔ ∃ x ∈ l, p x = true := by
  induction l with
  | nil => simp [updateFirst]
  | cons x xs ih =>
    by_cases hx : p x = true
    · simp [updateFirst, hx]
    · simp only [updateFirst, hx, if_false]
      simp only [List.mem_cons]
      constructor
      · intro h
        obtain ⟨y, hy, hpy⟩ := ih.mp h
        exact ⟨y, Or.inr hy, hpy⟩
      · rintro ⟨y, hy | hy, hpy⟩
        · exact absurd (hy ▸ hpy) hx
        · exact ih.mpr ⟨y, hy, hpy⟩

theorem updateFirst_true_decomp {α : Type} (p : α → Bool) (f : α → α)
    (l : List α) (h : (updateFirst p f l).2 = true) :
    ∃ l₁ x l₂, l = l₁ ++ x :: l₂ ∧ (∀ y ∈ l₁, p y = false) ∧ p x = true ∧
      (updateFirst p f l).1 = l₁ ++ f x :: l₂ := by
  induction l with
  | nil => simp [updateFirst] at h
  | cons x xs ih =>
    by_cases hx : p x = true
    · exact ⟨[], x, xs, by simp [updateFirst, hx]⟩
    · simp only [updateFirst, hx, if_false] at h ⊢
      obtain ⟨l₁, y, l₂, hsplit, hnot, hpy, hres⟩ := ih h
      refine ⟨x :: l₁, y, l₂, by simp [hsplit], ?_, hpy, by simp [hres]⟩
      intro z hz
      rcases List.mem_cons.mp hz with hz | hz
      · exact hz ▸ (Bool.not_eq_true _).mp hx
      · exact hnot z hz

theorem updateFirst_map_key {α κ : Type} (p : α → Bool) (f : α → α)
    (key : α → κ) (hf : ∀ x, key (f x) = key x) (l : List α) :
    (updateFirst p f l).1.map key = l.map key := by
  induction l with
  | nil => rfl
  | cons x xs ih =>
    by_cases hx : p x = true
    · simp [updateFirst, hx, hf]
    · simp [updateFirst, hx, ih]

theorem updateFirst_snd_false_fst {α : Type} (p : α → Bool) (f : α → α)
    (l : List α) (h : (updateFirst p f l).2 = false) :
    (updateFirst p f l).1 = l := by
  induction l with
  | nil => rfl
  | cons x xs ih =>
    by_cases hx : p x = true
    · simp [updateFirst, hx] at h
    · simp only [updateFirst, hx, Bool.false_eq_true, if_false] at h ⊢
      rw [ih h]

/-! ### Slot-key and booking lemmas -/

theorem slotKeyMatch_iff (doc : String) (d t : Nat) (s : SlotRec) :
    slotKeyMatch doc d t s = true ↔ slotKey s = (doc, d, t) := by
  simp [slotKeyMatch, slotKey, Prod.ext_iff, and_assoc]

theorem book_slot_snd_iff (db : DB) (doc : String) (d t : Nat) (id : String) :
    (book_slot db doc d t id).2 = true ↔
      ∃ s ∈ db.appointment_slots, slotKeyMatch doc d t s = true ∧ s.is_available = true := by
  simp only [book_slot]
  rw [updateFirst_snd_true_iff]
  simp [Bool.and_eq_true]

theorem book_slot_false_eq (db : DB) (doc : String) (d t : Nat) (id : String)
    (h : (book_slot db doc d t id).2 = false) : book_slot db doc d t id = (db, false) := by
  simp only [book_slot] at h ⊢
  rw [updateFirst_snd_false_fst _ _ _ h, h]

theorem book_slot_no_avail (db : DB) (doc : String) (d t : Nat) (id : String)
    (h : ∀ s ∈ db.appointment_slots, slotKeyMatch doc d t s = true → s.is_available = false) :
    book_slot db doc d t id = (db, false) := by
  apply book_slot_false_eq
  rw [Bool.eq_false_iff]
  intro hc
  obtain ⟨s, hs, hk, ha⟩ := (book_slot_snd_iff db doc d t id).mp hc
  rw [h s hs hk] at ha
  exact Bool.false_ne_true ha

theorem book_slot_keys (db : DB) (doc : String) (d t : Nat) (id : String) :
    (book_slot db doc d t id).1.appointment_slots.map slotKey =
      db.appointment_slots.map slotKey := by
  simp only [book_slot]
  exact updateFirst_map_key (fun s => slotKeyMatch doc d t s && s.is_available)
    (fun s => { s with is_available := false, appointment_id := some id })
    slotKey (fun x => rfl) db.appointment_slots

theorem book_slot_success_blocks (db : DB) (doc : String) (d t : Nat) (id : String)
    (hkeys : slotKeysNodup db) (h : (book_slot db doc d t id).2 = true) :
    ∀ s ∈ (book_slot db doc d t id).1.appointment_slots,
      slotKeyMatch doc d t s = true → s.is_available = false := by
  simp only [book_slot] at h ⊢
  obtain ⟨l₁, x, l₂, hsplit, hnot, hpx, hres⟩ := updateFirst_true_decomp _ _ _ h
  rw [hres]
  have hkx : slotKeyMatch doc d t x = true := by
    have h1 := hpx
    simp only [Bool.and_eq_true] at h1
    exact h1.1
  intro s hs hks
  rcases List.mem_append.mp hs with hs1 | hs2
  · have hps := hnot s hs1
    simp only [hks, Bool.true_and] at hps
    exact hps
  · rcases List.mem_cons.mp hs2 with rfl | hs3
    · rfl
    · exfalso
      unfold slotKeysNodup at hkeys
      rw [hsplit, List.map_append, List.map_cons] at hkeys
      have hnd : (slotKey x :: l₂.map slotKey).Nodup :=
        hkeys.sublist (List.sublist_append_right _ _)
      have hx : slotKey x = (doc, d, t) := (slotKeyMatch_iff _ _ _ _).mp hkx
      have hsk : slotKey s = (doc, d, t) := (slotKeyMatch_iff _ _ _ _).mp hks
      exact (List.nodup_cons.mp hnd).1 (hx ▸ hsk ▸ List.mem_map_of_mem slotKey hs3)

theorem runClaims_blocked (db : DB) (doc : String) (d t : Nat) (ids : List String)
    (h : ∀ s ∈ db.appointment_slots, slotKeyMatch doc d t s = true → s.is_available = false) :
    runClaims db doc d t ids = (db, 0) := by
  induction ids with
  | nil => rfl
  | cons id ids ih =>
    simp only [runClaims]
    rw [book_slot_no_avail db doc d t id h]
    simp [ih]

theorem runClaims_le_one (db : DB) (doc : String) (d t : Nat) (ids : List String)
    (hkeys : slotKeysNodup db) : (runClaims db doc d t ids).2 ≤ 1 := by
  induction ids generalizing db with
  | nil => simp [runClaims]
  | cons id ids ih =>
    by_cases hb : (book_slot db doc d t id).2 = true
    · have hblock := book_slot_success_blocks db doc d t id hkeys hb
      have hz := runClaims_blocked (book_slot db doc d t id).1 doc d t ids hblock
      simp only [runClaims]
      rw [hz]
      simp [hb]
    · have hf : (book_slot db doc d t id).2 = false := Bool.eq_false_iff.mpr hb
      have hfe := book_slot_false_eq db doc d t id hf
      simp only [runClaims]
      rw [hfe]
      simpa using ih db hkeys

/-- C1: `book_slot` is a single conditional update on the slot key: it
succeeds iff a record for the key is currently available; on success that
record becomes unavailable and carries the appointment id; and, under the
store's unique key index, any sequence of claims on one key with no
intervening release has at most one success (all others report `false`). -/
theorem claim_is_atomic_conditional_update (db : DB) (doc : String) (d t : Nat)
    (hkeys : slotKeysNodup db) :
    (∀ id, ((book_slot db doc d t id).2 = true ↔
      ∃ s ∈ db.appointment_slots, slotKeyMatch doc d t s = true ∧ s.is_available = true)) ∧
    (∀ id, (book_slot db doc d t id).2 = true →
      ∃ s ∈ (book_slot db doc d t id).1.appointment_slots,
        slotKeyMatch doc d t s = true ∧ s.is_available = false ∧
          s.appointment_id = some id) ∧
    (∀ ids, (runClaims db doc d t ids).2 ≤ 1) := by
  refine ⟨fun id => book_slot_snd_iff db doc d t id, fun id h => ?_,
    fun ids => runClaims_le_one db doc d t ids hkeys⟩
  simp only [book_slot] at h ⊢
  obtain ⟨l₁, x, l₂, hsplit, hnot, hpx, hres⟩ := updateFirst_true_decomp _ _ _ h
  rw [hres]
  refine ⟨{ x with is_available := false, appointment_id := some id }, ?_, ?_, rfl, rfl⟩
  · exact List.mem_append.mpr (Or.inr (List.mem_cons_self _ _))
  · have hkx : slotKeyMatch doc d t x = true := by
      have h1 := hpx
      simp only [Bool.and_eq_true] at h1
      exact h1.1
    rw [slotKeyMatch_iff] at hkx ⊢
    exact hkx

/-- Witness for C1 at a concrete store with one free slot: its key index
is duplicate-free, and two competing claims produce exactly one success. -/
theorem claim_is_atomic_conditional_update_witness :
    (runClaims dbOneSlot drEmail 0 540 ["a1", "a2"]).2 ≤ 1 :=
  (claim_is_atomic_conditional_update dbOneSlot drEmail 0 540 (by decide)).2.2 ["a1", "a2"]

/-! ### Release (`cancel_slot`) lemmas -/

theorem cancel_slot_no_match (db : DB) (id : String)
    (h : ∀ s ∈ db.appointment_slots, ¬ s.appointment_id = some id) :
    cancel_slot db id = (db, false) := by
  simp only [cancel_slot]
  rw [updateFirst_of_forall_not]
  · intro s hs
    simpa using h s hs

/-- C9: `cancel_slot` is total and idempotent: with no slot referencing
the appointment it returns `false` and leaves the store untouched; with a
(unique, per `book_slot`) booked slot it returns `true` and rewrites
exactly that record to available with the id cleared; releasing again then
returns `false` and changes nothing. -/
theorem release_idempotent_total (db : DB) (id : String)
    (hcount : (db.appointment_slots.filter (fun s => s.appointment_id == some id)).length ≤ 1) :
    ((∀ s ∈ db.appointment_slots, ¬ s.appointment_id = some id) →
      cancel_slot db id = (db, false)) ∧
    ((∃ s ∈ db.appointment_slots, s.appointment_id = some id) →
      (cancel_slot db id).2 = true ∧
      ∃ l₁ x l₂, db.appointment_slots = l₁ ++ x :: l₂ ∧ x.appointment_id = some id ∧
        (cancel_slot db id).1.appointment_slots =
          l₁ ++ { x with is_available := true, appointment_id := none } :: l₂) ∧
    cancel_slot (cancel_slot db id).1 id = ((cancel_slot db id).1, false) := by
  refine ⟨cancel_slot_no_match db id, ?_, ?_⟩
  · intro hex
    have htrue : (cancel_slot db id).2 = true := by
      simp only [cancel_slot]
      rw [updateFirst_snd_true_iff]
      obtain ⟨s, hs, hid⟩ := hex
      exact ⟨s, hs, by simp [hid]⟩
    refine ⟨htrue, ?_⟩
    simp only [cancel_slot] at htrue ⊢
    obtain ⟨l₁, x, l₂, hsplit, hnot, hpx, hres⟩ := updateFirst_true_decomp _ _ _ htrue
    exact ⟨l₁, x, l₂, hsplit, by simpa using hpx, hres⟩
  · by_cases hex : ∃ s ∈ db.appointment_slots, s.appointment_id = some id
    · have htrue : (cancel_slot db id).2 = true := by
        simp only [cancel_slot]
        rw [updateFirst_snd_true_iff]
        obtain ⟨s, hs, hid⟩ := hex
        exact ⟨s, hs, by simp [hid]⟩
      apply cancel_slot_no_match
      have htrue' := htrue
      simp only [cancel_slot] at htrue ⊢
      obtain ⟨l₁, x, l₂, hsplit, hnot, hpx, hres⟩ := updateFirst_true_decomp _ _ _ htrue
      rw [hres]
      have hl₂ : ∀ y ∈ l₂, ¬ y.appointment_id = some id := by
        rw [hsplit] at hcount
        have hfc : (x :: l₂).filter (fun s => s.appointment_id == some id)
            = x :: l₂.filter (fun s => s.appointment_id == some id) := by
          simp [List.filter_cons, hpx]
        rw [List.filter_append, hfc] at hcount
        have hl1 : (l₁.filter (fun s => s.appointment_id == some id)) = [] := by
          apply List.filter_eq_nil_iff.mpr
          intro a ha
          simp [hnot a ha]
        rw [hl1] at hcount
        simp only [List.nil_append, List.length_cons] at hcount
        intro y hy hyid
        have : y ∈ l₂.filter (fun s => s.appointment_id == some id) :=
          List.mem_filter.mpr ⟨hy, by simp [hyid]⟩
        have hlen : 0 < (l₂.filter (fun s => s.appointment_id == some id)).length :=
          List.length_pos.mpr (List.ne_nil_of_mem this)
        omega
      intro s hs
      rcases List.mem_append.mp hs with hs1 | hs2
      · simpa using hnot s hs1
      · rcases List.mem_cons.mp hs2 with rfl | hs3
        · simp
        · exact hl₂ s hs3
    · push_neg at hex
      have heq := cancel_slot_no_match db id hex
      rw [heq]
      exact cancel_slot_no_match db id hex

/-- Witness for C9 on a store with one booked slot: the booked slot is
released (flag back to available, id cleared) and a second release
reports `false`. -/
theorem release_idempotent_total_witness :
    ((∃ s ∈ dbBooked.appointment_slots, s.appointment_id = some "A1") →
      (cancel_slot dbBooked "A1").2 = true ∧
      ∃ l₁ x l₂, dbBooked.appointment_slots = l₁ ++ x :: l₂ ∧ x.appointment_id = some "A1" ∧
        (cancel_slot dbBooked "A1").1.appointment_slots =
          l₁ ++ { x with is_available := true, appointment_id := none } :: l₂) ∧
    cancel_slot (cancel_slot dbBooked "A1").1 "A1" = ((cancel_slot dbBooked "A1").1, false) :=
  ⟨(release_idempotent_total dbBooked "A1" (by decide)).2.1,
   (release_idempotent_total dbBooked "A1" (by decide)).2.2⟩

/-! ### Daily-override validation (C10) -/

/-- C10: a daily override whose main time range or any block-time range
has `start_time ≥ end_time` is rejected synchronously: the result is a
failure and the store is returned unchanged — no override document is
persisted and no slot regeneration runs. -/
theorem create_daily_override_rejects_invalid (db : DB) (ov : OverrideRec)
    (h : (∃ st et, ov.start_time = some st ∧ ov.end_time = some et ∧ et ≤ st) ∨
      ∃ b ∈ ov.block_time_slots, b.end_time ≤ b.start_time) :
    create_daily_override db ov = some (db, false) := by
  rcases h with ⟨st, et, hst, het, hle⟩ | ⟨b, hb, hle⟩
  · have hti : override_times_invalid ov = true := by
      simp [override_times_invalid, hst, het, hle]
    simp [create_daily_override, hti]
  · by_cases hti : override_times_invalid ov = true
    · simp [create_daily_override, hti]
    · have hbi : some_block_invalid ov = true := by
        simp only [some_block_invalid, List.any_eq_true]
        exact ⟨b, hb, by simp [hle]⟩
      simp [create_daily_override, hti, hbi]

/-- Witness for C10: an override whose main range is 10:00–09:00 and one
whose block time is 10:00–09:00 are both rejected with the store
untouched. -/
theorem create_daily_override_rejects_invalid_witness :
    create_daily_override db6 ⟨drEmail, 0, true, some 600, some 540, []⟩ = some (db6, false) ∧
    create_daily_override db6 ⟨drEmail, 0, true, none, none, [⟨600, 540⟩]⟩ = some (db6, false) :=
  ⟨create_daily_override_rejects_invalid db6 _ (Or.inl ⟨600, 540, rfl, rfl, by decide⟩),
   create_daily_override_rejects_invalid db6 _
    (Or.inr ⟨⟨600, 540⟩, by decide, by decide⟩)⟩

/-! ### The availability check and appointment creation (C2) -/

/-- C2 counterexample: in the empty store the code's availability check
returns `true` although no Slot Store record for the key exists at all, so
the check is not the spec's conjunction of slot-flag and
appointment-existence. -/
theorem is_slot_available_not_spec_check :
    is_slot_available emptyDB drEmail 0 540 = true ∧
      spec_is_slot_available emptyDB drEmail 0 540 = false := by decide

/-- C2 amended: `_is_slot_available` is true iff no appointment document
with the key and literal status `"SCHEDULED"` or `"CONFIRMED"` exists (the
Slot Store flag is not consulted, and cancelled/completed/no-show — indeed
any differently-spelled — statuses do not block); appointment creation is
rejected, with the store unchanged, whenever this check returns false. -/
theorem is_slot_available_appointments_only (db : DB) (doc : String) (d t : Nat) :
    (is_slot_available db doc d t = true ↔
      ∀ a ∈ db.appointments, apptKeyStatusMatch doc d t a = false) ∧
    (∀ a : ApptCreate, a.doctor_email = doc → a.appointment_date = d →
      a.appointment_time = t → is_slot_available db doc d t = false →
      create_appointment db a = (db, Except.error "Appointment slot is not available")) := by
  constructor
  · simp only [is_slot_available, Option.isNone_iff_eq_none, List.find?_eq_none]
    constructor
    · intro h a ha
      exact Bool.eq_false_iff.mpr (h a ha)
    · intro h a ha
      exact Bool.eq_false_iff.mp (h a ha)
  · rintro a rfl rfl rfl hfalse
    simp [create_appointment, hfalse]

/-- Witness for C2: on a store whose only appointment for the key is
`"scheduled"` (the casing the code writes), the check still returns `true`
— and on one with a literal `"SCHEDULED"` appointment, creation is
rejected. -/
theorem is_slot_available_appointments_only_witness :
    (is_slot_available dbCancelCase drEmail 0 540 = true ↔
      ∀ a ∈ dbCancelCase.appointments, apptKeyStatusMatch drEmail 0 540 a = false) ∧
    create_appointment
        ⟨[], [], [], [⟨"B1", drEmail, 0, 540, "SCHEDULED"⟩]⟩
        ⟨"B2", "patient@example.com", drEmail, 0, 540⟩ =
      (⟨[], [], [], [⟨"B1", drEmail, 0, 540, "SCHEDULED"⟩]⟩,
        Except.error "Appointment slot is not available") :=
  ⟨(is_slot_available_appointments_only dbCancelCase drEmail 0 540).1,
   (is_slot_available_appointments_only
      ⟨[], [], [], [⟨"B1", drEmail, 0, 540, "SCHEDULED"⟩]⟩ drEmail 0 540).2
      ⟨"B2", "patient@example.com", drEmail, 0, 540⟩ rfl rfl rfl (by decide)⟩

/-! ### Cancellation and the slot store (C5) -/

/-- C5 counterexample: cancelling appointment `"A1"` succeeds, yet the
slot it holds keeps `is_available = false` and still carries the
appointment id — the slot is not released. -/
theorem cancel_appointment_does_not_release :
    (cancel_appointment dbCancelCase "A1").2 = true ∧
      (cancel_appointment dbCancelCase "A1").1.appointment_slots =
        [⟨drEmail, 0, 540, false, some "A1"⟩] := by decide

/-- C5 amended: `cancel_appointment` only rewrites the appointment's
status to `"cancelled"` — it succeeds iff the appointment exists and it
never touches the slot store (nor schedules or overrides); the booked slot
stays unavailable with its appointment id.  Releasing the slot is a
separate operation (`cancel_slot`) that appointment cancellation does not
invoke. -/
theorem cancel_appointment_status_only (db : DB) (apptId : String) :
    (cancel_appointment db apptId).1.appointment_slots = db.appointment_slots ∧
    (cancel_appointment db apptId).1.doctor_schedules = db.doctor_schedules ∧
    (cancel_appointment db apptId).1.daily_overrides = db.daily_overrides ∧
    ((cancel_appointment db apptId).2 = true ↔ ∃ a ∈ db.appointments, a.id = apptId) := by
  refine ⟨rfl, rfl, rfl, ?_⟩
  simp only [cancel_appointment]
  rw [updateFirst_snd_true_iff]
  simp

/-! ### The time-grid loops on non-wrapping input -/

theorem generate_slots_day_loop_spec (endT dur : Nat) (hdur : 0 < dur)
    (hwrap : endT + dur ≤ 1440) :
    ∀ fuel cur, endT - cur < fuel →
      generate_slots_day_loop endT dur fuel cur = some (specTimeGrid dur endT cur) := by
  intro fuel
  induction fuel with
  | zero => intro cur h; omega
  | succ n ih =>
    intro cur h
    by_cases hc : cur < endT
    · have hadd : add_minutes_to_time cur dur = cur + dur := by
        simp only [add_minutes_to_time]
        exact Nat.mod_eq_of_lt (by omega)
      simp only [generate_slots_day_loop, if_pos hc, hadd]
      rw [ih (cur + dur) (by omega), Option.map_some']
      by_cases hle : cur + dur ≤ endT
      · have hspec : specTimeGrid dur endT cur = cur :: specTimeGrid dur endT (cur + dur) := by
          rw [specTimeGrid]
          rw [dif_pos ⟨hdur, hle⟩]
        rw [if_pos hle, hspec]
      · rw [if_neg hle]
        have h1 : specTimeGrid dur endT (cur + dur) = [] := by
          rw [specTimeGrid]
          rw [dif_neg (by omega)]
        have h2 : specTimeGrid dur endT cur = [] := by
          rw [specTimeGrid]
          rw [dif_neg (by omega)]
        rw [h1, h2]
    · simp only [generate_slots_day_loop, if_neg hc]
      have h2 : specTimeGrid dur endT cur = [] := by
        rw [specTimeGrid]
        rw [dif_neg (by omega)]
      rw [h2]

theorem generate_slots_overrides_loop_spec (endT dur : Nat) (blocks : List BlockRec)
    (hdur : 0 < dur) (hwrap : endT + dur ≤ 1440) :
    ∀ fuel cur, endT - cur < fuel →
      generate_slots_overrides_loop endT dur blocks fuel cur =
        some ((specTimeGrid dur endT cur).filter
          (fun t => !(blocks.any (blocked_by t (t + dur))))) := by
  intro fuel
  induction fuel with
  | zero => intro cur h; omega
  | succ n ih =>
    intro cur h
    by_cases hc : cur < endT
    · have hadd : add_minutes_to_time cur dur = cur + dur := by
        simp only [add_minutes_to_time]
        exact Nat.mod_eq_of_lt (by omega)
      simp only [generate_slots_overrides_loop, if_pos hc, hadd]
      rw [ih (cur + dur) (by omega), Option.map_some']
      by_cases hle : cur + dur ≤ endT
      · have hspec : specTimeGrid dur endT cur = cur :: specTimeGrid dur endT (cur + dur) := by
          rw [specTimeGrid]
          rw [dif_pos ⟨hdur, hle⟩]
        rw [hspec, List.filter_cons]
        rw [decide_eq_true hle, Bool.true_and]
      · have h1 : specTimeGrid dur endT (cur + dur) = [] := by
          rw [specTimeGrid]
          rw [dif_neg (by omega)]
        have h2 : specTimeGrid dur endT cur = [] := by
          rw [specTimeGrid]
          rw [dif_neg (by omega)]
        rw [decide_eq_false hle, Bool.false_and]
        simp only [Bool.false_eq_true, if_false]
        rw [h1, h2, List.filter_nil]
    · simp only [generate_slots_overrides_loop, if_neg hc]
      have h2 : specTimeGrid dur endT cur = [] := by
        rw [specTimeGrid]
        rw [dif_neg (by omega)]
      rw [h2, List.filter_nil]

theorem generate_time_slots_loop_spec (endT : Nat) (hwrap : endT + 30 ≤ 1440) :
    ∀ fuel cur, endT - cur < fuel →
      generate_time_slots_loop endT fuel cur = some (specEvery30 endT cur) := by
  intro fuel
  induction fuel with
  | zero => intro cur h; omega
  | succ n ih =>
    intro cur h
    by_cases hc : cur < endT
    · have hadd : add_minutes_to_time cur 30 = cur + 30 := by
        simp only [add_minutes_to_time]
        exact Nat.mod_eq_of_lt (by omega)
      simp only [generate_time_slots_loop, if_pos hc, hadd]
      rw [ih (cur + 30) (by omega), Option.map_some']
      have hspec : specEvery30 endT cur = cur :: specEvery30 endT (cur + 30) := by
        rw [specEvery30]
        rw [if_pos hc]
      rw [hspec]
    · simp only [generate_time_slots_loop, if_neg hc]
      have hspec : specEvery30 endT cur = [] := by
        rw [specEvery30]
        rw [if_neg hc]
      rw [hspec]

theorem generate_slots_day_loop_exit (endT dur fuel cur : Nat)
    (hfuel : 0 < fuel) (h : endT ≤ cur) :
    generate_slots_day_loop endT dur fuel cur = some [] := by
  cases fuel with
  | zero => omega
  | succ n => simp only [generate_slots_day_loop, if_neg (by omega : ¬ cur < endT)]

theorem generate_time_slots_loop_exit (endT fuel cur : Nat)
    (hfuel : 0 < fuel) (h : endT ≤ cur) :
    generate_time_slots_loop endT fuel cur = some [] := by
  cases fuel with
  | zero => omega
  | succ n => simp only [generate_time_slots_loop, if_neg (by omega : ¬ cur < endT)]

/-- C7 amended: on input whose slot arithmetic stays within one day
(`end + duration ≤ 24h`), `_generate_slots_for_day`'s grid is exactly the
spec's sequence `t₀ = start, tᵢ₊₁ = tᵢ + duration` of the `tᵢ` with
`tᵢ + duration ≤ end`, and `start ≥ end` yields the empty sequence without
error; `AvailabilityService._generate_time_slots`, however, steps by a
fixed 30 minutes and emits every `tᵢ < end` — including a final slot with
`tᵢ + 30 > end` — again empty for `start ≥ end`.  (On wrapping input the
loops compute times modulo 24h and need not terminate.) -/
theorem time_grid_contract_amended (st et dur : Nat) (hdur : 0 < dur)
    (hwrap : et + dur ≤ 1440) :
    time_grid st et dur = some (specTimeGrid dur et st) ∧
    (et + 30 ≤ 1440 → generate_time_slots st et = some (specEvery30 et st)) ∧
    (et ≤ st → time_grid st et dur = some [] ∧ generate_time_slots st et = some []) := by
  refine ⟨?_, fun h30 => ?_, fun hse => ⟨?_, ?_⟩⟩
  · exact generate_slots_day_loop_spec et dur hdur hwrap loopFuel st
      (by unfold loopFuel; omega)
  · exact generate_time_slots_loop_spec et h30 loopFuel st (by unfold loopFuel; omega)
  · exact generate_slots_day_loop_exit et dur loopFuel st (by unfold loopFuel; omega) hse
  · exact generate_time_slots_loop_exit et loopFuel st (by unfold loopFuel; omega) hse

/-- Witness for C7 (amended) at 09:00–11:00 with 30-minute duration. -/
theorem time_grid_contract_amended_witness :
    time_grid 540 660 30 = some (specTimeGrid 30 660 540) ∧
    (660 + 30 ≤ 1440 → generate_time_slots 540 660 = some (specEvery30 660 540)) ∧
    (660 ≤ 540 → time_grid 540 660 30 = some [] ∧ generate_time_slots 540 660 = some []) :=
  time_grid_contract_amended 540 660 30 (by decide) (by decide)

/-- C7 counterexample: for start 09:00, end 09:45 the claimed sequence is
`[540]` (09:30 is excluded since `570 + 30 > 585`), but
`_generate_time_slots` returns `[540, 570]` — it emits a slot whose end
exceeds `end`. -/
theorem generate_time_slots_exceeds_end :
    generate_time_slots 540 585 = some [540, 570] ∧
      specTimeGrid 30 585 540 = [540] ∧ ¬ (570 + 30 ≤ 585) :=
  ⟨by decide, by simp [specTimeGrid], by decide⟩

/-- C6: the override-aware generator drops a candidate start `t` exactly
when `[t, t + duration)` overlaps some block window (`t < block_end` and
`block_start < t + duration` — partial overlap included); in the spec's
concrete scenario (template 09:00–11:00, 30-minute slots, block
09:30–10:00) both the generator and the full override-aware listing after
the override is created return exactly 09:00, 10:00, 10:30. -/
theorem block_time_exclusion (st et dur : Nat) (blocks : List BlockRec)
    (hdur : 0 < dur) (hwrap : et + dur ≤ 1440) :
    generate_slots_with_overrides_times st et dur blocks =
      some ((specTimeGrid dur et st).filter
        (fun t => !(blocks.any (blocked_by t (t + dur))))) ∧
    (create_daily_override db6 ov6 = some (db7, true) ∧
      db7.appointment_slots.map SlotRec.slot_time = [540, 600, 630] ∧
      (get_available_slots_with_overrides db7 drEmail 0 0).map
          (fun r => r.2.map SlotRec.slot_time) = some [540, 600, 630]) := by
  refine ⟨?_, by decide, by decide, by decide⟩
  exact generate_slots_overrides_loop_spec et dur blocks hdur hwrap loopFuel st
    (by unfold loopFuel; omega)

/-- Witness for C6 at the spec's block-time example. -/
theorem block_time_exclusion_witness :
    generate_slots_with_overrides_times 540 660 30 [⟨570, 600⟩] =
      some ((specTimeGrid 30 660 540).filter
        (fun t => !([(⟨570, 600⟩ : BlockRec)].any (blocked_by t (t + 30))))) :=
  (block_time_exclusion 540 660 30 [⟨570, 600⟩] (by decide) (by decide)).1

/-! ### Membership through upserts, creates and deletes -/

theorem mem_upsert_slot_doc (db : DB) (rec s : SlotRec)
    (h : s ∈ (upsert_slot_doc db rec).appointment_slots) :
    s ∈ db.appointment_slots ∨ s = rec := by
  simp only [upsert_slot_doc] at h
  by_cases h2 : (updateFirst (fun x => slotKeyMatch rec.doctor_email rec.slot_date rec.slot_time x)
      (fun _ => rec) db.appointment_slots).2 = true
  · rw [if_pos h2] at h
    obtain ⟨l₁, x, l₂, hsplit, _, _, hres⟩ := updateFirst_true_decomp _ _ _ h2
    rw [hres] at h
    rcases List.mem_append.mp h with h1 | h1
    · exact Or.inl (hsplit ▸ List.mem_append.mpr (Or.inl h1))
    · rcases List.mem_cons.mp h1 with rfl | h3
      · exact Or.inr rfl
      · exact Or.inl (hsplit ▸ List.mem_append.mpr (Or.inr (List.mem_cons_of_mem _ h3)))
  · rw [if_neg h2] at h
    rcases List.mem_append.mp h with h1 | h1
    · exact Or.inl h1
    · exact Or.inr (List.mem_singleton.mp h1)

theorem mem_create_appointment_slots (recs : List SlotRec) :
    ∀ db : DB, ∀ s ∈ (create_appointment_slots db recs).appointment_slots,
      s ∈ db.appointment_slots ∨ s ∈ recs := by
  induction recs with
  | nil => intro db s hs; exact Or.inl hs
  | cons r rest ih =>
    intro db s hs
    rcases ih (upsert_slot_doc db r) s hs with h1 | h1
    · rcases mem_upsert_slot_doc db r s h1 with h2 | h2
      · exact Or.inl h2
      · exact Or.inr (h2 ▸ List.mem_cons_self _ _)
    · exact Or.inr (List.mem_cons_of_mem _ h1)

theorem mem_delete_slots_for_date (db : DB) (doc : String) (d : Nat) (s : SlotRec)
    (h : s ∈ (delete_slots_for_date db doc d).appointment_slots) :
    s ∈ db.appointment_slots ∧ dateMatch doc d s = false := by
  simp only [delete_slots_for_date] at h
  have h1 := List.mem_filter.mp h
  exact ⟨h1.1, by simpa using h1.2⟩

theorem mem_delete_future_slots (db : DB) (doc : String) (today : Nat) (s : SlotRec)
    (h : s ∈ (delete_future_slots db doc today).appointment_slots) :
    s ∈ db.appointment_slots ∧ ¬(s.doctor_email = doc ∧ today ≤ s.slot_date) := by
  simp only [delete_future_slots] at h
  have h1 := List.mem_filter.mp h
  refine ⟨h1.1, ?_⟩
  have h2 := h1.2
  simp only [Bool.not_eq_true'] at h2
  intro hcon
  simp [hcon.1, hcon.2] at h2

theorem foldSteps_mem (step : DB → Nat → Option DB) (P : SlotRec → Prop)
    (hstep : ∀ db d db1, step db d = some db1 →
      ∀ s ∈ db1.appointment_slots, s ∈ db.appointment_slots ∨ P s) :
    ∀ ds (db db' : DB), foldSteps step db ds = some db' →
      ∀ s ∈ db'.appointment_slots, s ∈ db.appointment_slots ∨ P s := by
  intro ds
  induction ds with
  | nil =>
    intro db db' h s hs
    simp only [foldSteps, Option.some.injEq] at h
    exact Or.inl (h ▸ hs)
  | cons d rest ih =>
    intro db db' h s hs
    simp only [foldSteps] at h
    cases hd : step db d with
    | none => rw [hd] at h; simp at h
    | some db1 =>
      rw [hd] at h
      simp only [Option.some_bind] at h
      rcases ih db1 db' h s hs with h1 | h1
      · exact hstep db d db1 hd s h1
      · exact Or.inr h1

/-- Generated slot documents are fresh: available and unbooked. -/
theorem mem_map_mkAvailSlot (doc : String) (d : Nat) (ts : List Nat) (s : SlotRec)
    (h : s ∈ ts.map (mkAvailSlot doc d)) :
    s.is_available = true ∧ s.appointment_id = none := by
  obtain ⟨t, _, rfl⟩ := List.mem_map.mp h
  exact ⟨rfl, rfl⟩

theorem generate_slots_for_day_mem (db : DB) (doc : String) (d : Nat) (sched : SchedDay)
    (db1 : DB) (h : generate_slots_for_day db doc d sched = some db1) :
    ∀ s ∈ db1.appointment_slots, s ∈ db.appointment_slots ∨
      (s.is_available = true ∧ s.appointment_id = none) := by
  intro s hs
  simp only [generate_slots_for_day] at h
  by_cases he : (slots_for_date db doc d).isEmpty = true
  · rw [if_pos he] at h
    rw [Option.map_eq_some'] at h
    obtain ⟨ts, _, rfl⟩ := h
    rcases mem_create_appointment_slots _ db s hs with h1 | h1
    · exact Or.inl h1
    · exact Or.inr (mem_map_mkAvailSlot doc d ts s h1)
  · rw [if_neg he] at h
    cases h
    exact Or.inl hs

/-- C4 (amended): regeneration does not preserve bookings.  After
`_regenerate_slots_for_date` every slot document of that doctor and date
is a fresh available one with no appointment id (a previously booked slot
is deleted or reset, never kept with its booking), and
`update_weekly_schedule` likewise leaves only fresh available documents
for all dates from today on. -/
theorem regeneration_drops_bookings (doc : String) :
    (∀ (db : DB) (d : Nat) (db' : DB), regenerate_slots_for_date db doc d = some db' →
      ∀ s ∈ db'.appointment_slots, s.doctor_email = doc → s.slot_date = d →
        s.is_available = true ∧ s.appointment_id = none) ∧
    (∀ (db : DB) (w : WeeklyRec) (today : Nat) (db2 : DB),
      update_weekly_schedule db doc w today = some db2 →
      ∀ s ∈ db2.appointment_slots, s.doctor_email = doc → today ≤ s.slot_date →
        s.is_available = true ∧ s.appointment_id = none) := by
  constructor
  · intro db d db' h s hs hdoc hdate
    simp only [regenerate_slots_for_date] at h
    split at h
    · split at h
      · rw [Option.map_eq_some'] at h
        obtain ⟨ts, _, rfl⟩ := h
        rcases mem_create_appointment_slots _ _ s hs with h1 | h1
        · have h2 := mem_delete_slots_for_date db doc d s h1
          rw [dateMatch, hdoc, hdate] at h2
          simp at h2
        · exact mem_map_mkAvailSlot doc d ts s h1
      · cases h
        have h2 := mem_delete_slots_for_date db doc d s hs
        rw [dateMatch, hdoc, hdate] at h2
        simp at h2
    · cases h
      have h2 := mem_delete_slots_for_date db doc d s hs
      rw [dateMatch, hdoc, hdate] at h2
      simp at h2
  · intro db w today db2 h s hs hdoc hdate
    simp only [update_weekly_schedule, generate_slots_for_period] at h
    have hmem : s ∈ (delete_future_slots (upsert_weekly db w) doc today).appointment_slots ∨
        (s.is_available = true ∧ s.appointment_id = none) := by
      split at h
      · cases h
        exact Or.inl hs
      · refine foldSteps_mem _ (fun t => t.is_available = true ∧ t.appointment_id = none) ?_ _ _ _ h s hs
        intro dbx dx db1 hstep t ht
        simp only [period_step] at hstep
        split at hstep
        · split at hstep
          · exact generate_slots_for_day_mem dbx doc dx _ db1 hstep t ht
          · cases hstep
            exact Or.inl ht
        · cases hstep
          exact Or.inl ht
    rcases hmem with h1 | h1
    · have h2 := mem_delete_future_slots _ doc today s h1
      exact absurd ⟨hdoc, hdate⟩ h2.2
    · exact h1

/-- Witness for C4 (amended): the slot regenerated at 09:00 on day 0
after `dbBooked`'s regeneration is available and unbooked. -/
theorem regeneration_drops_bookings_witness :
    SlotRec.is_available ⟨drEmail, 0, 540, true, none⟩ = true ∧
      SlotRec.appointment_id ⟨drEmail, 0, 540, true, none⟩ = none :=
  (regeneration_drops_bookings drEmail).1 dbBooked 0 db4 (by rfl)
    ⟨drEmail, 0, 540, true, none⟩ (by decide) rfl rfl

/-- C4 counterexample: `dbBooked` holds a booked slot
`(drEmail, day 0, 09:00)` referencing appointment `"A1"`, yet after
`_regenerate_slots_for_date` no slot document carries any appointment id —
the booking is silently dropped. -/
theorem regeneration_removes_booked_slot :
    (⟨drEmail, 0, 540, false, some "A1"⟩ : SlotRec) ∈ dbBooked.appointment_slots ∧
      (regenerate_slots_for_date dbBooked drEmail 0).map
        (fun x => x.appointment_slots.map SlotRec.appointment_id) =
          some [none, none, none, none] := by decide

/-! ### Regeneration idempotence (C8): store-level preservation lemmas -/

theorem filter_not_filter {α : Type} (q r : α → Bool) (h : ∀ a, q a = true → r a = false) :
    ∀ l : List α, (l.filter (fun a => !(r a))).filter q = l.filter q := by
  intro l
  induction l with
  | nil => rfl
  | cons x xs ih =>
    cases hr : r x with
    | true =>
      have hq : q x = false := by
        cases hq : q x with
        | true => exact absurd (h x hq) (by simp [hr])
        | false => rfl
      simp [List.filter_cons, hr, hq, ih]
    | false => simp [List.filter_cons, hr, ih]

theorem slots_for_date_delete_self (db : DB) (doc : String) (d : Nat) :
    slots_for_date (delete_slots_for_date db doc d) doc d = [] := by
  apply List.filter_eq_nil_iff.mpr
  intro a ha
  have h1 := (List.mem_filter.mp ha).2
  simp only [Bool.not_eq_true'] at h1
  simp [h1]

theorem slots_for_date_delete_other (db : DB) (doc : String) (d d' : Nat) (hne : d' ≠ d) :
    slots_for_date (delete_slots_for_date db doc d') doc d = slots_for_date db doc d := by
  simp only [slots_for_date, delete_slots_for_date]
  apply filter_not_filter
  intro a hq
  simp only [dateMatch, Bool.and_eq_true, beq_iff_eq] at hq
  have hd : (a.slot_date == d') = false := by
    rw [hq.2]
    exact beq_eq_false_iff_ne.mpr (fun hh => hne hh.symm)
  simp [dateMatch, hd]

theorem slotKeyMatch_fields (rec x : SlotRec)
    (h : slotKeyMatch rec.doctor_email rec.slot_date rec.slot_time x = true) :
    x.doctor_email = rec.doctor_email ∧ x.slot_date = rec.slot_date ∧
      x.slot_time = rec.slot_time := by
  have hk := (slotKeyMatch_iff _ _ _ _).mp h
  simpa [slotKey, Prod.ext_iff] using hk

theorem dateMatch_of_keyMatch (rec x : SlotRec) (doc : String) (d : Nat)
    (h : slotKeyMatch rec.doctor_email rec.slot_date rec.slot_time x = true) :
    dateMatch doc d x = dateMatch doc d rec := by
  obtain ⟨h1, h2, _⟩ := slotKeyMatch_fields rec x h
  simp only [dateMatch, h1, h2]

theorem slots_for_date_upsert_other (db : DB) (rec : SlotRec) (doc : String) (d : Nat)
    (h : dateMatch doc d rec = false) :
    slots_for_date (upsert_slot_doc db rec) doc d = slots_for_date db doc d := by
  simp only [upsert_slot_doc, slots_for_date]
  by_cases h2 : (updateFirst
      (fun s => slotKeyMatch rec.doctor_email rec.slot_date rec.slot_time s)
      (fun _ => rec) db.appointment_slots).2 = true
  · rw [if_pos h2]
    obtain ⟨l₁, x, l₂, hsplit, _, hpx, hres⟩ := updateFirst_true_decomp _ _ _ h2
    rw [hres]
    have hx : dateMatch doc d x = false := (dateMatch_of_keyMatch rec x doc d hpx).trans h
    rw [hsplit]
    simp [List.filter_append, List.filter_cons, hx, h]
  · rw [if_neg h2]
    simp [List.filter_append, List.filter_cons, h]

theorem slots_for_date_create_other (doc : String) (d : Nat) :
    ∀ recs : List SlotRec, (∀ r ∈ recs, dateMatch doc d r = false) →
      ∀ db : DB, slots_for_date (create_appointment_slots db recs) doc d =
        slots_for_date db doc d := by
  intro recs
  induction recs with
  | nil => intro _ db; rfl
  | cons r rest ih =>
    intro hall db
    have hstep := slots_for_date_upsert_other db r doc d (hall r (List.mem_cons_self _ _))
    have hrest := ih (fun x hx => hall x (List.mem_cons_of_mem _ hx)) (upsert_slot_doc db r)
    simp only [create_appointment_slots, List.foldl_cons] at hrest ⊢
    rw [hrest, hstep]

theorem rec_mem_upsert_slot_doc (db : DB) (rec : SlotRec) :
    rec ∈ (upsert_slot_doc db rec).appointment_slots := by
  simp only [upsert_slot_doc]
  by_cases h2 : (updateFirst
      (fun s => slotKeyMatch rec.doctor_email rec.slot_date rec.slot_time s)
      (fun _ => rec) db.appointment_slots).2 = true
  · rw [if_pos h2]
    obtain ⟨l₁, x, l₂, _, _, _, hres⟩ := updateFirst_true_decomp _ _ _ h2
    rw [hres]
    exact List.mem_append.mpr (Or.inr (List.mem_cons_self _ _))
  · rw [if_neg h2]
    exact List.mem_append.mpr (Or.inr (List.mem_singleton.mpr rfl))

theorem exists_dateMatch_upsert (db : DB) (rec : SlotRec) (doc : String) (d : Nat)
    (h : ∃ x ∈ db.appointment_slots, dateMatch doc d x = true) :
    ∃ x ∈ (upsert_slot_doc db rec).appointment_slots, dateMatch doc d x = true := by
  obtain ⟨y, hy, hqy⟩ := h
  simp only [upsert_slot_doc]
  by_cases h2 : (updateFirst
      (fun s => slotKeyMatch rec.doctor_email rec.slot_date rec.slot_time s)
      (fun _ => rec) db.appointment_slots).2 = true
  · rw [if_pos h2]
    obtain ⟨l₁, x, l₂, hsplit, _, hpx, hres⟩ := updateFirst_true_decomp _ _ _ h2
    rw [hres]
    rw [hsplit] at hy
    rcases List.mem_append.mp hy with hy1 | hy2
    · exact ⟨y, List.mem_append.mpr (Or.inl hy1), hqy⟩
    · rcases List.mem_cons.mp hy2 with rfl | hy3
      · refine ⟨rec, List.mem_append.mpr (Or.inr (List.mem_cons_self _ _)), ?_⟩
        rw [← dateMatch_of_keyMatch rec y doc d hpx]
        exact hqy
      · exact ⟨y, List.mem_append.mpr (Or.inr (List.mem_cons_of_mem _ hy3)), hqy⟩
  · rw [if_neg h2]
    exact ⟨y, List.mem_append.mpr (Or.inl hy), hqy⟩

theorem exists_dateMatch_create (doc : String) (d : Nat) :
    ∀ recs : List SlotRec, ∀ db : DB,
      (∃ x ∈ db.appointment_slots, dateMatch doc d x = true) →
      ∃ x ∈ (create_appointment_slots db recs).appointment_slots, dateMatch doc d x = true := by
  intro recs
  induction recs with
  | nil => intro db h; exact h
  | cons r rest ih =>
    intro db h
    exact ih (upsert_slot_doc db r) (exists_dateMatch_upsert db r doc d h)

theorem upsert_slot_doc_schedules (db : DB) (rec : SlotRec) :
    (upsert_slot_doc db rec).doctor_schedules = db.doctor_schedules := by
  simp only [upsert_slot_doc]
  split <;> rfl

theorem create_appointment_slots_schedules :
    ∀ recs : List SlotRec, ∀ db : DB,
      (create_appointment_slots db recs).doctor_schedules = db.doctor_schedules := by
  intro recs
  induction recs with
  | nil => intro db; rfl
  | cons r rest ih =>
    intro db
    simp only [create_appointment_slots, List.foldl_cons] at ih ⊢
    rw [ih, upsert_slot_doc_schedules]

theorem ensure_step_schedules (doc : String) (w : WeeklyRec) (db : DB) (d : Nat) (db1 : DB)
    (h : ensure_step doc w db d = some db1) :
    db1.doctor_schedules = db.doctor_schedules := by
  simp only [ensure_step] at h
  split at h
  · split at h
    · simp only [generate_slots_for_day] at h
      split at h
      · rw [Option.map_eq_some'] at h
        obtain ⟨ts, _, rfl⟩ := h
        rw [create_appointment_slots_schedules]
      · cases h; rfl
    · cases h; rfl
  · split at h
    · cases h; rfl
    · cases h; rfl

theorem foldSteps_ensure_schedules (doc : String) (w : WeeklyRec) :
    ∀ ds (db db' : DB), foldSteps (ensure_step doc w) db ds = some db' →
      db'.doctor_schedules = db.doctor_schedules := by
  intro ds
  induction ds with
  | nil =>
    intro db db' h
    simp only [foldSteps, Option.some.injEq] at h
    rw [← h]
  | cons d rest ih =>
    intro db db' h
    simp only [foldSteps] at h
    cases hstep : ensure_step doc w db d with
    | none => rw [hstep] at h; simp at h
    | some db1 =>
      rw [hstep, Option.some_bind] at h
      rw [ih db1 db' h, ensure_step_schedules doc w db d db1 hstep]

theorem upsert_slot_doc_keys_nodup (db : DB) (rec : SlotRec) (h : slotKeysNodup db) :
    slotKeysNodup (upsert_slot_doc db rec) := by
  unfold slotKeysNodup at h ⊢
  simp only [upsert_slot_doc]
  by_cases h2 : (updateFirst
      (fun s => slotKeyMatch rec.doctor_email rec.slot_date rec.slot_time s)
      (fun _ => rec) db.appointment_slots).2 = true
  · rw [if_pos h2]
    obtain ⟨l₁, x, l₂, hsplit, _, hpx, hres⟩ := updateFirst_true_decomp _ _ _ h2
    rw [hres]
    have hkey : slotKey rec = slotKey x := by
      have hk := (slotKeyMatch_iff _ _ _ _).mp hpx
      rw [hk]
      rfl
    rw [List.map_append, List.map_cons, hkey]
    rw [hsplit, List.map_append, List.map_cons] at h
    exact h
  · rw [if_neg h2]
    have hall : ∀ z ∈ db.appointment_slots,
        slotKeyMatch rec.doctor_email rec.slot_date rec.slot_time z = false := by
      intro z hz
      cases hzt : slotKeyMatch rec.doctor_email rec.slot_date rec.slot_time z with
      | false => rfl
      | true => exact absurd ((updateFirst_snd_true_iff _ _ _).mpr ⟨z, hz, hzt⟩) h2
    have hnotin : slotKey rec ∉ db.appointment_slots.map slotKey := by
      intro hmem
      obtain ⟨y, hy, hky⟩ := List.mem_map.mp hmem
      have hym : slotKeyMatch rec.doctor_email rec.slot_date rec.slot_time y = true :=
        (slotKeyMatch_iff _ _ _ _).mpr hky
      rw [hall y hy] at hym
      exact Bool.false_ne_true hym
    rw [List.map_append, List.nodup_append]
    refine ⟨h, List.nodup_singleton _, ?_⟩
    intro a ha hb
    rw [List.map_singleton, List.mem_singleton] at hb
    exact hnotin (hb ▸ ha)

theorem create_appointment_slots_keys_nodup :
    ∀ recs : List SlotRec, ∀ db : DB, slotKeysNodup db →
      slotKeysNodup (create_appointment_slots db recs) := by
  intro recs
  induction recs with
  | nil => intro db h; exact h
  | cons r rest ih =>
    intro db h
    exact ih (upsert_slot_doc db r) (upsert_slot_doc_keys_nodup db r h)

theorem delete_slots_for_date_keys_nodup (db : DB) (doc : String) (d : Nat)
    (h : slotKeysNodup db) : slotKeysNodup (delete_slots_for_date db doc d) := by
  unfold slotKeysNodup at h ⊢
  exact List.Nodup.sublist ((List.filter_sublist _).map slotKey) h

theorem ensure_step_keys_nodup (doc : String) (w : WeeklyRec) (db : DB) (d : Nat) (db1 : DB)
    (hstep : ensure_step doc w db d = some db1) (h : slotKeysNodup db) :
    slotKeysNodup db1 := by
  simp only [ensure_step] at hstep
  split at hstep
  · split at hstep
    · simp only [generate_slots_for_day] at hstep
      split at hstep
      · rw [Option.map_eq_some'] at hstep
        obtain ⟨ts, _, rfl⟩ := hstep
        exact create_appointment_slots_keys_nodup _ db h
      · cases hstep; exact h
    · cases hstep; exact h
  · split at hstep
    · cases hstep; exact delete_slots_for_date_keys_nodup db doc d h
    · cases hstep; exact h

theorem foldSteps_ensure_keys_nodup (doc : String) (w : WeeklyRec) :
    ∀ ds (db db' : DB), foldSteps (ensure_step doc w) db ds = some db' →
      slotKeysNodup db → slotKeysNodup db' := by
  intro ds
  induction ds with
  | nil =>
    intro db db' h hk
    simp only [foldSteps, Option.some.injEq] at h
    exact h ▸ hk
  | cons d rest ih =>
    intro db db' h hk
    simp only [foldSteps] at h
    cases hstep : ensure_step doc w db d with
    | none => rw [hstep] at h; simp at h
    | some db1 =>
      rw [hstep, Option.some_bind] at h
      exact ih db1 db' h (ensure_step_keys_nodup doc w db d db1 hstep hk)

theorem ensure_step_other_date (doc : String) (w : WeeklyRec) (db : DB) (d' : Nat) (db1 : DB)
    (h : ensure_step doc w db d' = some db1) (d : Nat) (hne : d' ≠ d) :
    slots_for_date db1 doc d = slots_for_date db doc d := by
  simp only [ensure_step] at h
  split at h
  · split at h
    · simp only [generate_slots_for_day] at h
      split at h
      · rw [Option.map_eq_some'] at h
        obtain ⟨ts, _, rfl⟩ := h
        apply slots_for_date_create_other
        intro r hr
        obtain ⟨t, _, rfl⟩ := List.mem_map.mp hr
        have hd : ((mkAvailSlot doc d' t).slot_date == d) = false :=
          beq_eq_false_iff_ne.mpr hne
        simp [dateMatch, hd]
      · cases h; rfl
    · cases h; rfl
  · split at h
    · cases h
      exact slots_for_date_delete_other db doc d d' hne
    · cases h; rfl

theorem slots_isEmpty_false_of_exists (db : DB) (doc : String) (d : Nat)
    (h : ∃ x ∈ db.appointment_slots, dateMatch doc d x = true) :
    (slots_for_date db doc d).isEmpty = false := by
  obtain ⟨x, hx, hq⟩ := h
  have hmem : x ∈ slots_for_date db doc d := List.mem_filter.mpr ⟨hx, hq⟩
  cases hl : slots_for_date db doc d with
  | nil => rw [hl] at hmem; simp at hmem
  | cons a l => rfl

theorem ensure_step_fix (doc : String) (w : WeeklyRec) (db : DB) (d : Nat) (db1 : DB)
    (h : ensure_step doc w db d = some db1) :
    ∀ s : DB, slots_for_date s doc d = slots_for_date db1 doc d →
      ensure_step doc w s d = some s := by
  intro s hs
  simp only [ensure_step] at h ⊢
  by_cases hA : dayAvailable (dayScheduleOf w d) = true
  · by_cases hE : (slots_for_date db doc d).isEmpty = true
    · rw [if_pos (by simp [hA, hE])] at h
      cases hds : dayScheduleOf w d with
      | none => rw [hds] at hA; simp [dayAvailable] at hA
      | some sched =>
        have hAs : dayAvailable (some sched) = true := hds ▸ hA
        rw [hds] at h
        simp only [generate_slots_for_day] at h
        rw [if_pos hE] at h
        rw [Option.map_eq_some'] at h
        obtain ⟨ts, hts, hdb1⟩ := h
        cases ts with
        | nil =>
          have hdb : db1 = db := by
            rw [← hdb1]
            rfl
          have hsE : (slots_for_date s doc d).isEmpty = true := by
            rw [hs, hdb]
            exact hE
          rw [if_pos (by rw [hAs, hsE]; rfl)]
          show generate_slots_for_day s doc d sched = some s
          simp only [generate_slots_for_day]
          rw [if_pos hsE, hts]
          rfl
        | cons t ts' =>
          have hex : ∃ x ∈ db1.appointment_slots, dateMatch doc d x = true := by
            rw [← hdb1]
            have hseed : ∃ x ∈ (upsert_slot_doc db (mkAvailSlot doc d t)).appointment_slots,
                dateMatch doc d x = true :=
              ⟨mkAvailSlot doc d t, rec_mem_upsert_slot_doc db _, by simp [dateMatch, mkAvailSlot]⟩
            exact exists_dateMatch_create doc d (ts'.map (mkAvailSlot doc d)) _ hseed
          have hsE : (slots_for_date s doc d).isEmpty = false := by
            rw [hs]
            exact slots_isEmpty_false_of_exists db1 doc d hex
          rw [if_neg (by rw [hsE, Bool.and_false]; exact Bool.false_ne_true),
            if_neg (by rw [hAs, Bool.not_true, Bool.false_and]; exact Bool.false_ne_true)]
    · have hE' : (slots_for_date db doc d).isEmpty = false := Bool.eq_false_iff.mpr hE
      rw [if_neg (by simp [hE']), if_neg (by simp [hA])] at h
      cases h
      have hsE : (slots_for_date s doc d).isEmpty = false := by
        rw [hs]
        exact hE'
      rw [if_neg (by simp [hsE]), if_neg (by simp [hA])]
  · have hA' : dayAvailable (dayScheduleOf w d) = false := Bool.eq_false_iff.mpr hA
    by_cases hE : (slots_for_date db doc d).isEmpty = true
    · rw [if_neg (by simp [hA']), if_neg (by simp [hE])] at h
      cases h
      have hsE : (slots_for_date s doc d).isEmpty = true := by
        rw [hs]
        exact hE
      rw [if_neg (by simp [hA']), if_neg (by simp [hsE])]
    · have hE' : (slots_for_date db doc d).isEmpty = false := Bool.eq_false_iff.mpr hE
      rw [if_neg (by simp [hA']), if_pos (by simp [hA', hE'])] at h
      cases h
      have hsE : (slots_for_date s doc d).isEmpty = true := by
        rw [hs, slots_for_date_delete_self]
        rfl
      rw [if_neg (by simp [hA']), if_neg (by simp [hsE])]

theorem foldSteps_ensure_other (doc : String) (w : WeeklyRec) :
    ∀ ds (db db' : DB) (d : Nat), foldSteps (ensure_step doc w) db ds = some db' →
      d ∉ ds → slots_for_date db' doc d = slots_for_date db doc d := by
  intro ds
  induction ds with
  | nil =>
    intro db db' d h _
    simp only [foldSteps, Option.some.injEq] at h
    rw [← h]
  | cons d' rest ih =>
    intro db db' d h hd
    simp only [foldSteps] at h
    cases hstep : ensure_step doc w db d' with
    | none => rw [hstep] at h; simp at h
    | some db1 =>
      rw [hstep, Option.some_bind] at h
      have hne : d' ≠ d := fun hh => hd (hh ▸ List.mem_cons_self _ _)
      rw [ih db1 db' d h (fun hh => hd (List.mem_cons_of_mem _ hh)),
        ensure_step_other_date doc w db d' db1 hstep d hne]

theorem foldSteps_ensure_fix (doc : String) (w : WeeklyRec) :
    ∀ ds (db db' : DB), ds.Nodup → foldSteps (ensure_step doc w) db ds = some db' →
      foldSteps (ensure_step doc w) db' ds = some db' := by
  intro ds
  induction ds with
  | nil =>
    intro db db' _ _
    rfl
  | cons d rest ih =>
    intro db db' hnd h
    simp only [foldSteps] at h ⊢
    cases hstep : ensure_step doc w db d with
    | none => rw [hstep] at h; simp at h
    | some db1 =>
      rw [hstep, Option.some_bind] at h
      have hnd' := List.nodup_cons.mp hnd
      have hpres := foldSteps_ensure_other doc w rest db1 db' d h hnd'.1
      have hfix := ensure_step_fix doc w db d db1 hstep db' hpres
      rw [hfix, Option.some_bind]
      exact ih db1 db' hnd'.2 h

theorem dateRange_nodup (sd ed : Nat) : (dateRange sd ed).Nodup := by
  unfold dateRange
  refine List.Nodup.map ?_ (List.nodup_range _)
  intro a b hab
  have h2 : sd + a = sd + b := hab
  omega

/-- C8: `_ensure_slots_generated` is idempotent — a second run over the
same range, with no intervening template/override change or booking,
returns the store exactly as the first run left it (same documents, same
flags and appointment ids); and under the unique slot-key index the run
never introduces duplicate keys. -/
theorem regeneration_idempotent (db db' : DB) (doc : String) (sd ed : Nat)
    (h : ensure_slots_generated db doc sd ed = some db') :
    ensure_slots_generated db' doc sd ed = some db' ∧
      (slotKeysNodup db → slotKeysNodup db') := by
  simp only [ensure_slots_generated] at h ⊢
  cases hw : find_weekly db doc with
  | none =>
    rw [hw] at h
    simp only [Option.some.injEq] at h
    subst h
    rw [hw]
    exact ⟨rfl, id⟩
  | some w =>
    rw [hw] at h
    have hsched : db'.doctor_schedules = db.doctor_schedules :=
      foldSteps_ensure_schedules doc w _ db db' h
    have hw' : find_weekly db' doc = some w := by
      unfold find_weekly at hw ⊢
      rw [hsched]
      exact hw
    rw [hw']
    exact ⟨foldSteps_ensure_fix doc w _ db db' (dateRange_nodup sd ed) h,
      fun hk => foldSteps_ensure_keys_nodup doc w _ db db' h hk⟩

/-- Witness for C8: running `_ensure_slots_generated` on
`dbOverrideClosed` for day 0 yields `db8`, and running it again on `db8`
returns `db8` unchanged. -/
theorem regeneration_idempotent_witness :
    ensure_slots_generated db8 drEmail 0 0 = some db8 ∧
      (slotKeysNodup dbOverrideClosed → slotKeysNodup db8) :=
  regeneration_idempotent dbOverrideClosed db8 drEmail 0 0 (by rfl)

/-! ### Override precedence through the listing path (C3) -/

/-- C3: the code violates override precedence.  `dbOverrideClosed` holds a
day-closing override for day 0 (`is_available = false`) and no slot
documents for that date — exactly the state override regeneration leaves —
yet the override-aware listing regenerates six slots for day 0 from the
weekly template alone and returns them, instead of returning zero slots.
(`_ensure_slots_generated` never consults `daily_overrides`, and the
listing's block filter does not implement day closure.) -/
theorem listing_ignores_closed_override :
    find_override dbOverrideClosed drEmail 0 =
      some ⟨drEmail, 0, false, none, none, []⟩ ∧
    slots_for_date dbOverrideClosed drEmail 0 = [] ∧
    (get_available_slots_with_overrides dbOverrideClosed drEmail 0 0).map
        (fun r => r.2.map SlotRec.slot_time) =
      some [540, 570, 600, 630, 660, 690] := by decide

end HealthMate
